import Mathlib

/-!
Shallow embedding of the password-generator application core
(`src/App.tsx`) and verification of its specified properties.

Modelling conventions:
* `PasswordEntry.createdAt` is kept as a string, as in the source.  The
  host's date parsing (`new Date(s).getTime()`, `NaN` on failure) is an
  external capability; it is modelled by an explicit parameter
  `parse : String → Option Int` (milliseconds since the epoch, `none`
  standing for `NaN`).
* `Date.now()` is modelled by an explicit `now : Int` argument.
* The random source is modelled by a function `randWords : Nat → Nat`
  giving the 32-bit word consumed by the `i`-th call of `getRandomInt`
  inside one `generatePassword` run; `getRandomInt` reduces it modulo
  the alphabet size exactly as `arr[0] % max` does.
* `localStorage` holds one value under a fixed key; the store is
  modelled as `Option (List PasswordEntry)`: `none` is an absent key or
  malformed JSON (both make `loadHistory` return `[]` via the
  `catch`), `some l` is a stored JSON array that parses back to `l`
  (`JSON.parse ∘ JSON.stringify` is the identity on entry arrays).
* The sort comparator `new Date(b.createdAt).getTime() - new
  Date(a.createdAt).getTime()` is only ever applied to pruned entries,
  whose timestamps all parse; the model totalises it with
  `(parse _).getD 0`.
-/

/-- One historical record, as the `PasswordEntry` type in the source. -/
structure PasswordEntry where
  id : String
  value : String
  createdAt : String
deriving DecidableEq, Repr

/-- `MAX_AGE_MS = 30 * 24 * 60 * 60 * 1000` (30 days). -/
def MAX_AGE_MS : Int := 30 * 24 * 60 * 60 * 1000

def UPPERCASE : String := "ABCDEFGHIJKLMNOPQRSTUVWXYZ"
def LOWERCASE : String := "abcdefghijklmnopqrstuvwxyz"
def NUMBERS : String := "0123456789"
def SYMBOLS : String := "!@#$%^&*()_+[]{}|;:,.<>?"

/-- `pruneOldPasswords`: keep an entry when its `createdAt` parses
(`ts` not `NaN`) and `now - ts <= MAX_AGE_MS`. -/
def pruneOldPasswords (parse : String → Option Int) (now : Int)
    (entries : List PasswordEntry) : List PasswordEntry :=
  entries.filter fun entry =>
    match parse entry.createdAt with
    | none => false
    | some ts => decide (now - ts ≤ MAX_AGE_MS)

/-- Timestamp key used by the sort comparator; only applied to entries
whose `createdAt` parses, so the `getD 0` default is never relevant. -/
def entryTime (parse : String → Option Int) (e : PasswordEntry) : Int :=
  (parse e.createdAt).getD 0

/-- `sortByNewest`: stable sort with comparator
`new Date(b.createdAt).getTime() - new Date(a.createdAt).getTime()`,
i.e. descending by parsed timestamp (JS `Array.prototype.sort` is
stable; `mergeSort` is the stable sort). -/
def sortByNewest (parse : String → Option Int)
    (entries : List PasswordEntry) : List PasswordEntry :=
  entries.mergeSort fun a b => decide (entryTime parse b ≤ entryTime parse a)

/-- `loadHistory`: absent key or parse failure gives `[]`, otherwise
prune then sort the stored array. -/
def loadHistory (parse : String → Option Int) (now : Int)
    (store : Option (List PasswordEntry)) : List PasswordEntry :=
  match store with
  | none => []
  | some parsed => sortByNewest parse (pruneOldPasswords parse now parsed)

/-- `saveHistory`: overwrites the stored value with the serialized
collection (which parses back to the same list). -/
def saveHistory (entries : List PasswordEntry) : Option (List PasswordEntry) :=
  some entries

/-- `getRandomInt` on the strong path: a uniformly random 32-bit word
`w` reduced as `arr[0] % max`.  (The `Math.random` fallback also yields
a value in `[0, max)`, hence of the form `w % max`.) -/
def getRandomInt (w : Nat) (max : Nat) : Nat := w % max

/-- The `opts` record taken by `generatePassword`.  `length` is an
integer (the code never bounds it; the loop `for (i=0; i<length; i++)`
runs `max length 0` times). -/
structure GenOptions where
  length : Int
  useUppercase : Bool
  useLowercase : Bool
  useNumbers : Bool
  useSymbols : Bool
deriving DecidableEq, Repr

/-- The `pools` array: class constants pushed in the fixed order
uppercase, lowercase, numbers, symbols, one per enabled flag. -/
def passwordPools (opts : GenOptions) : List String :=
  (if opts.useUppercase then [UPPERCASE] else []) ++
  (if opts.useLowercase then [LOWERCASE] else []) ++
  (if opts.useNumbers then [NUMBERS] else []) ++
  (if opts.useSymbols then [SYMBOLS] else [])

/-- `all = pools.join('')`: the usable alphabet. -/
def passwordAlphabet (opts : GenOptions) : String :=
  String.join (passwordPools opts)

/-- `generatePassword`: validation error when no class is enabled,
otherwise `length` characters indexed by `getRandomInt` draws. -/
def generatePassword (randWords : Nat → Nat) (opts : GenOptions) :
    Except String String :=
  let pools := passwordPools opts
  if pools.length = 0 then
    Except.error "Select at least one character type."
  else
    let all := String.join pools
    Except.ok (String.mk ((List.range opts.length.toNat).map fun i =>
      all.data.getD (getRandomInt (randWords i) all.length) ' '))

/-- The component state touched by `handleGenerate`/`handleDelete`. -/
structure AppState where
  history : List PasswordEntry
  currentPassword : String
  error : Option String
deriving Repr

/-- `handleGenerate`: on success build the new entry (`id` is the ISO
timestamp string plus a random suffix, `createdAt` the same timestamp
string), prepend, prune, sort, and set the current password; on the
thrown validation error only set the error message. -/
def handleGenerate (parse : String → Option Int) (randWords : Nat → Nat)
    (nowStr suffix : String) (now : Int) (opts : GenOptions)
    (s : AppState) : AppState :=
  match generatePassword randWords opts with
  | Except.error msg => { s with error := some msg }
  | Except.ok pwd =>
    let newEntry : PasswordEntry :=
      { id := nowStr ++ "-" ++ suffix, value := pwd, createdAt := nowStr }
    let next := sortByNewest parse (pruneOldPasswords parse now (newEntry :: s.history))
    { history := next, currentPassword := pwd, error := none }

/-- `handleDelete`: `prev.filter((entry) => entry.id !== id)`. -/
def handleDelete (id : String) (entries : List PasswordEntry) : List PasswordEntry :=
  entries.filter fun entry => decide (entry.id ≠ id)

/-- `handleLengthChange`: `Number(input)` is modelled as
`Option Int` (`none` for `NaN`, which leaves the length unchanged);
otherwise clamp to `[4, 64]`. -/
def handleLengthChange (value : Option Int) (length : Int) : Int :=
  match value with
  | none => length
  | some v => min 64 (max 4 v)

/-- Number of 32-bit words that `getRandomInt` maps to index `r` for an
alphabet of size `max`. -/
def wordCount (max r : Nat) : Nat :=
  ((List.range (2 ^ 32)).filter fun w => decide (getRandomInt w max = r)).length

/-! ### Helper lemmas -/

lemma mem_pruneOldPasswords (parse : String → Option Int) (now : Int)
    (entries : List PasswordEntry) (e : PasswordEntry) :
    e ∈ pruneOldPasswords parse now entries ↔
      e ∈ entries ∧ ∃ ts, parse e.createdAt = some ts ∧ now - ts ≤ MAX_AGE_MS := by
  unfold pruneOldPasswords
  rw [List.mem_filter]
  cases h : parse e.createdAt with
  | none => simp [h]
  | some ts => simp [h]

lemma mem_sortByNewest (parse : String → Option Int)
    (entries : List PasswordEntry) (e : PasswordEntry) :
    e ∈ sortByNewest parse entries ↔ e ∈ entries := by
  unfold sortByNewest
  exact List.mem_mergeSort

/-! ### Claims -/

/-- C3: pruning keeps an entry iff its `createdAt` parses to an instant
`ts` with `now - ts ≤ 30` days (inclusive); unparsable timestamps are
dropped; an entry exactly 30 days 1 second old is removed and one
exactly 29 days 23 hours old is kept. -/
theorem pruneOldPasswords_spec (parse : String → Option Int) (now : Int)
    (entries : List PasswordEntry) :
    (∀ e, e ∈ pruneOldPasswords parse now entries ↔
      e ∈ entries ∧ ∃ ts, parse e.createdAt = some ts ∧ now - ts ≤ MAX_AGE_MS) ∧
    (∀ e ts, parse e.createdAt = some ts → now - ts = MAX_AGE_MS + 1000 →
      e ∉ pruneOldPasswords parse now entries) ∧
    (∀ e ts, e ∈ entries → parse e.createdAt = some ts → now - ts = 2588400000 →
      e ∈ pruneOldPasswords parse now entries) := by
  refine ⟨fun e => mem_pruneOldPasswords parse now entries e, ?_, ?_⟩
  · intro e ts hts hage hmem
    obtain ⟨-, ts', hts', hle⟩ := (mem_pruneOldPasswords parse now entries e).mp hmem
    rw [hts] at hts'
    cases hts'
    rw [hage] at hle
    norm_num [MAX_AGE_MS] at hle
  · intro e ts hmem hts hage
    refine (mem_pruneOldPasswords parse now entries e).mpr ⟨hmem, ts, hts, ?_⟩
    rw [hage]
    norm_num [MAX_AGE_MS]

/-- A clock that parses every timestamp string to the epoch. -/
def zeroClock : String → Option Int := fun _ => some 0

def entryA : PasswordEntry := { id := "ida", value := "pa", createdAt := "a" }

/-- Witness for `pruneOldPasswords_spec` at concrete inputs. -/
theorem pruneOldPasswords_spec_witness :
    entryA ∉ pruneOldPasswords zeroClock 2592001000 [entryA] ∧
    entryA ∈ pruneOldPasswords zeroClock 2588400000 [entryA] :=
  ⟨(pruneOldPasswords_spec zeroClock 2592001000 [entryA]).2.1 entryA 0 rfl (by decide),
   (pruneOldPasswords_spec zeroClock 2588400000 [entryA]).2.2 entryA 0 (by decide) rfl (by decide)⟩

/-- C6: pruning is idempotent — pruning an already-pruned list at the
same evaluation time changes nothing. -/
theorem pruneOldPasswords_idempotent (parse : String → Option Int) (now : Int)
    (entries : List PasswordEntry) :
    pruneOldPasswords parse now (pruneOldPasswords parse now entries) =
      pruneOldPasswords parse now entries := by
  unfold pruneOldPasswords
  exact List.filter_eq_self.mpr fun a ha => (List.mem_filter.mp ha).2

/-- C5: saving a collection and loading it back yields, as a set of
entries, exactly the pruned form of the saved collection. -/
theorem saveHistory_loadHistory_roundtrip (parse : String → Option Int) (now : Int)
    (entries : List PasswordEntry) (e : PasswordEntry) :
    e ∈ loadHistory parse now (saveHistory entries) ↔
      e ∈ pruneOldPasswords parse now entries := by
  unfold loadHistory saveHistory
  exact mem_sortByNewest parse _ e

lemma passwordPools_length_ne_zero (opts : GenOptions)
    (hclass : opts.useUppercase = true ∨ opts.useLowercase = true ∨
      opts.useNumbers = true ∨ opts.useSymbols = true) :
    (passwordPools opts).length ≠ 0 := by
  obtain ⟨len, u, l, n, s⟩ := opts
  cases u <;> cases l <;> cases n <;> cases s <;> simp_all [passwordPools]

lemma passwordAlphabet_data_length_pos (opts : GenOptions)
    (hclass : opts.useUppercase = true ∨ opts.useLowercase = true ∨
      opts.useNumbers = true ∨ opts.useSymbols = true) :
    0 < (passwordAlphabet opts).data.length := by
  obtain ⟨len, u, l, n, s⟩ := opts
  cases u <;> cases l <;> cases n <;> cases s <;>
    simp_all [passwordAlphabet, passwordPools] <;> decide

/-- C2: with all four classes disabled `generatePassword` throws the
validation error for any length, and `handleGenerate` then leaves both
the history and the current password unchanged. -/
theorem generatePassword_all_disabled (randWords : Nat → Nat) (opts : GenOptions)
    (hU : opts.useUppercase = false) (hL : opts.useLowercase = false)
    (hN : opts.useNumbers = false) (hS : opts.useSymbols = false) :
    generatePassword randWords opts = Except.error "Select at least one character type." ∧
    ∀ parse nowStr suffix now s,
      (handleGenerate parse randWords nowStr suffix now opts s).history = s.history ∧
      (handleGenerate parse randWords nowStr suffix now opts s).currentPassword =
        s.currentPassword := by
  have hpools : passwordPools opts = [] := by
    simp [passwordPools, hU, hL, hN, hS]
  have hgen : generatePassword randWords opts =
      Except.error "Select at least one character type." := by
    unfold generatePassword
    rw [hpools]
    rfl
  refine ⟨hgen, fun parse nowStr suffix now s => ?_⟩
  unfold handleGenerate
  rw [hgen]
  exact ⟨rfl, rfl⟩

/-- Options with every class disabled. -/
def optsNone : GenOptions :=
  { length := 10, useUppercase := false, useLowercase := false,
    useNumbers := false, useSymbols := false }

/-- A sample app state. -/
def stateA : AppState := { history := [entryA], currentPassword := "p", error := none }

/-- Witness for `generatePassword_all_disabled` at concrete inputs. -/
theorem generatePassword_all_disabled_witness :
    generatePassword (fun _ => 0) optsNone =
      Except.error "Select at least one character type." ∧
    (handleGenerate zeroClock (fun _ => 0) "t" "x" 0 optsNone stateA).history =
      stateA.history ∧
    (handleGenerate zeroClock (fun _ => 0) "t" "x" 0 optsNone stateA).currentPassword =
      stateA.currentPassword :=
  have h := generatePassword_all_disabled (fun _ => 0) optsNone rfl rfl rfl rfl
  ⟨h.1, (h.2 zeroClock "t" "x" 0 stateA).1, (h.2 zeroClock "t" "x" 0 stateA).2⟩

/-- C10: `generatePassword` enforces no length bounds — with a class
enabled and `length ≤ 0` it returns the empty string; the `[4,64]`
clamp lives only in the UI length handler, and only when the input
parses as a number. -/
theorem generatePassword_no_length_clamp (randWords : Nat → Nat) (opts : GenOptions)
    (hclass : opts.useUppercase = true ∨ opts.useLowercase = true ∨
      opts.useNumbers = true ∨ opts.useSymbols = true)
    (hlen : opts.length ≤ 0) :
    generatePassword randWords opts = Except.ok "" ∧
    (∀ v len, handleLengthChange (some v) len = min 64 (max 4 v)) ∧
    (∀ len, handleLengthChange none len = len) := by
  refine ⟨?_, fun v len => rfl, fun len => rfl⟩
  have hne := passwordPools_length_ne_zero opts hclass
  have htn : opts.length.toNat = 0 := Int.toNat_of_nonpos hlen
  unfold generatePassword
  rw [if_neg hne, htn]
  rfl

/-- Options enabling only uppercase. -/
def optsUpper : GenOptions :=
  { length := -3, useUppercase := true, useLowercase := false,
    useNumbers := false, useSymbols := false }

/-- Witness for `generatePassword_no_length_clamp` at concrete inputs. -/
theorem generatePassword_no_length_clamp_witness :
    generatePassword (fun _ => 0) optsUpper = Except.ok "" ∧
    handleLengthChange (some 100) 16 = 64 ∧
    handleLengthChange none 16 = 16 :=
  have h := generatePassword_no_length_clamp (fun _ => 0) optsUpper
    (Or.inl rfl) (by decide)
  ⟨h.1, h.2.1 100 16, h.2.2 16⟩

lemma getD_mem_of_lt {α : Type} (l : List α) (i : Nat) (d : α) (h : i < l.length) :
    l.getD i d ∈ l := by
  rw [List.getD_eq_getElem?_getD, List.getElem?_eq_getElem h]
  exact List.getElem_mem h

/-- C1: for options with at least one class enabled and length in
`[4,64]`, `generatePassword` succeeds with a string of exactly `length`
characters, each taken from the alphabet obtained by concatenating the
enabled class constants in the fixed order uppercase, lowercase,
digits, symbols. -/
theorem generatePassword_valid (randWords : Nat → Nat) (opts : GenOptions)
    (hclass : opts.useUppercase = true ∨ opts.useLowercase = true ∨
      opts.useNumbers = true ∨ opts.useSymbols = true)
    (hlo : 4 ≤ opts.length) (hhi : opts.length ≤ 64) :
    ∃ s : String, generatePassword randWords opts = Except.ok s ∧
      (s.length : Int) = opts.length ∧
      ∀ c ∈ s.data, c ∈ (passwordAlphabet opts).data := by
  have hne := passwordPools_length_ne_zero opts hclass
  have hpos := passwordAlphabet_data_length_pos opts hclass
  refine ⟨String.mk ((List.range opts.length.toNat).map fun i =>
      (passwordAlphabet opts).data.getD
        (getRandomInt (randWords i) (passwordAlphabet opts).length) ' '), ?_, ?_, ?_⟩
  · unfold generatePassword
    rw [if_neg hne]
    rfl
  · show (((List.range opts.length.toNat).map _).length : Int) = opts.length
    rw [List.length_map, List.length_range]
    exact Int.toNat_of_nonneg (by omega)
  · intro c hc
    obtain ⟨i, hi, rfl⟩ := List.mem_map.mp hc
    exact getD_mem_of_lt _ _ _ (Nat.mod_lt _ hpos)

/-- Options enabling every class, length 8. -/
def optsAll : GenOptions :=
  { length := 8, useUppercase := true, useLowercase := true,
    useNumbers := true, useSymbols := true }

/-- Witness for `generatePassword_valid` at concrete inputs. -/
theorem generatePassword_valid_witness :
    ∃ s : String, generatePassword (fun i => 37 * i + 5) optsAll = Except.ok s ∧
      (s.length : Int) = optsAll.length ∧
      ∀ c ∈ s.data, c ∈ (passwordAlphabet optsAll).data :=
  generatePassword_valid (fun i => 37 * i + 5) optsAll (Or.inl rfl)
    (by decide) (by decide)

lemma sortByNewest_pairwise (parse : String → Option Int) (l : List PasswordEntry) :
    (sortByNewest parse l).Pairwise
      fun a b => entryTime parse b ≤ entryTime parse a := by
  unfold sortByNewest
  refine (List.sorted_mergeSort ?_ ?_ l).imp fun hab => of_decide_eq_true hab
  · intro a b c hab hbc
    exact decide_eq_true (le_trans (of_decide_eq_true hbc) (of_decide_eq_true hab))
  · intro a b
    rcases le_total (entryTime parse b) (entryTime parse a) with h | h <;> simp [h]

lemma sorted_index_lt (parse : String → Option Int) (r : List PasswordEntry)
    (hp : r.Pairwise fun a b => entryTime parse b ≤ entryTime parse a)
    (i j : Nat) (hi : i < r.length) (hj : j < r.length) (ta tb : Int)
    (hta : parse (r[i]).createdAt = some ta)
    (htb : parse (r[j]).createdAt = some tb)
    (hlt : tb < ta) : i < j := by
  rcases Nat.lt_trichotomy i j with h | h | h
  · exact h
  · exfalso
    subst h
    rw [hta] at htb
    injection htb with h'
    omega
  · exfalso
    have hrel := (List.pairwise_iff_getElem.mp hp) j i hj hi h
    simp only [entryTime, hta, htb, Option.getD_some] at hrel
    omega

/-- C4: in a collection returned by `loadHistory` or built by the
append step of `handleGenerate` (prepend, prune, sort), an entry whose
`createdAt` parses to a strictly later instant appears strictly
earlier: the collection is sorted newest-first by parsed timestamp. -/
theorem history_sorted_newest_first (parse : String → Option Int) :
    (∀ (now : Int) (store : Option (List PasswordEntry)) (i j : Nat)
      (hi : i < (loadHistory parse now store).length)
      (hj : j < (loadHistory parse now store).length) (ta tb : Int),
      parse ((loadHistory parse now store)[i]).createdAt = some ta →
      parse ((loadHistory parse now store)[j]).createdAt = some tb →
      tb < ta → i < j) ∧
    (∀ (now : Int) (e : PasswordEntry) (hist : List PasswordEntry) (i j : Nat)
      (hi : i < (sortByNewest parse (pruneOldPasswords parse now (e :: hist))).length)
      (hj : j < (sortByNewest parse (pruneOldPasswords parse now (e :: hist))).length)
      (ta tb : Int),
      parse ((sortByNewest parse (pruneOldPasswords parse now (e :: hist)))[i]).createdAt = some ta →
      parse ((sortByNewest parse (pruneOldPasswords parse now (e :: hist)))[j]).createdAt = some tb →
      tb < ta → i < j) := by
  constructor
  · intro now store i j hi hj ta tb hta htb hlt
    match store with
    | none => simp [loadHistory] at hi
    | some parsed =>
      exact sorted_index_lt parse _ (sortByNewest_pairwise parse _) i j hi hj ta tb hta htb hlt
  · intro now e hist i j hi hj ta tb hta htb hlt
    exact sorted_index_lt parse _ (sortByNewest_pairwise parse _) i j hi hj ta tb hta htb hlt

/-- A two-instant clock: `"a"` parses to 2 ms, `"b"` to 1 ms. -/
def tsTable : String → Option Int := fun s =>
  if s = "a" then some 2 else if s = "b" then some 1 else none

def entryB : PasswordEntry := { id := "idb", value := "pb", createdAt := "b" }

unseal List.merge List.mergeSort in
/-- Witness for `history_sorted_newest_first` at concrete inputs. -/
theorem history_sorted_newest_first_witness :
    0 < (loadHistory tsTable 0 (some [entryB, entryA])).length ∧
    1 < (loadHistory tsTable 0 (some [entryB, entryA])).length ∧
    (0 : Nat) < 1 :=
  ⟨by decide, by decide,
   (history_sorted_newest_first tsTable).1 0 (some [entryB, entryA]) 0 1
     (by decide) (by decide) 2 1 (by decide) (by decide) (by decide)⟩

def dupE1 : PasswordEntry := { id := "x", value := "p1", createdAt := "a" }
def dupE2 : PasswordEntry := { id := "x", value := "p2", createdAt := "b" }

/-- C7 counterexample: on a collection in which two distinct entries
share the id `"x"`, `remove "x"` deletes both, returning a collection
of size `n - 2`, not `n - 1` as the claim states for every collection. -/
theorem handleDelete_duplicate_id_counterexample :
    dupE1 ∈ [dupE1, dupE2] ∧ dupE1.id = "x" ∧
    ([dupE1, dupE2] : List PasswordEntry).length = 2 ∧
    (handleDelete "x" [dupE1, dupE2]).length = 0 ∧
    (handleDelete "x" [dupE1, dupE2]).length ≠
      ([dupE1, dupE2] : List PasswordEntry).length - 1 := by
  decide

lemma handleDelete_no_match (i : String) (l : List PasswordEntry)
    (h : ∀ e ∈ l, e.id ≠ i) : handleDelete i l = l :=
  List.filter_eq_self.mpr fun e he => decide_eq_true (h e he)

lemma length_handleDelete_of_mem (i : String) :
    ∀ (l : List PasswordEntry), (l.map PasswordEntry.id).Nodup →
      (∃ e ∈ l, e.id = i) → (handleDelete i l).length = l.length - 1 := by
  intro l hnd h
  induction l with
  | nil =>
    obtain ⟨e, he, -⟩ := h
    exact absurd he (List.not_mem_nil e)
  | cons a t ih =>
    rw [List.map_cons, List.nodup_cons] at hnd
    obtain ⟨ha, hndt⟩ := hnd
    by_cases hid : a.id = i
    · have ht : ∀ e ∈ t, e.id ≠ i := by
        intro e he heq
        exact ha (List.mem_map.mpr ⟨e, he, heq.trans hid.symm⟩)
      have hstep : handleDelete i (a :: t) = handleDelete i t := by
        unfold handleDelete
        exact List.filter_cons_of_neg (by simp [hid])
      rw [hstep, handleDelete_no_match i t ht]
      simp
    · obtain ⟨e, he, heid⟩ := h
      rcases List.mem_cons.mp he with rfl | het
      · exact absurd heid hid
      · have hlen := ih hndt ⟨e, het, heid⟩
        have hpos : 0 < t.length := List.length_pos.mpr (List.ne_nil_of_mem het)
        have hstep : handleDelete i (a :: t) = a :: handleDelete i t := by
          unfold handleDelete
          exact List.filter_cons_of_pos
            (show (fun entry : PasswordEntry => decide (entry.id ≠ i)) a = true from
              decide_eq_true hid)
        rw [hstep]
        simp only [List.length_cons, hlen]
        omega

/-- C7 (amended): on a collection whose ids are pairwise distinct,
`remove(id)` with a matching entry returns a collection of size `n - 1`
containing no entry with that id; on a collection without the id it is
a no-op (the original claim fails when the id occurs more than once,
which removes every occurrence). -/
theorem handleDelete_spec (i : String) (l : List PasswordEntry) :
    ((l.map PasswordEntry.id).Nodup → (∃ e ∈ l, e.id = i) →
      (handleDelete i l).length = l.length - 1 ∧
      ∀ e ∈ handleDelete i l, e.id ≠ i) ∧
    ((∀ e ∈ l, e.id ≠ i) → handleDelete i l = l) := by
  refine ⟨fun hnd h => ⟨length_handleDelete_of_mem i l hnd h, ?_⟩,
    handleDelete_no_match i l⟩
  intro e he
  exact of_decide_eq_true (List.mem_filter.mp he).2

/-- Witness for `handleDelete_spec` at concrete inputs. -/
theorem handleDelete_spec_witness :
    (handleDelete "ida" [entryA, entryB]).length = 1 ∧
    handleDelete "zzz" [entryA, entryB] = [entryA, entryB] :=
  ⟨((handleDelete_spec "ida" [entryA, entryB]).1 (by decide)
      ⟨entryA, by decide, by decide⟩).1,
   (handleDelete_spec "zzz" [entryA, entryB]).2 (by decide)⟩

/-- History collections reachable through the app's operations: a load
from (arbitrary pre-existing) storage, the generate handler, and the
delete handler. -/
inductive Reachable (parse : String → Option Int) : List PasswordEntry → Prop
  | load (now : Int) (store : Option (List PasswordEntry)) :
      Reachable parse (loadHistory parse now store)
  | generate (hist : List PasswordEntry) (cur : String) (err : Option String)
      (randWords : Nat → Nat) (nowStr suffix : String) (now : Int)
      (opts : GenOptions) (h : Reachable parse hist) :
      Reachable parse
        ((handleGenerate parse randWords nowStr suffix now opts
          { history := hist, currentPassword := cur, error := err }).history)
  | delete (hist : List PasswordEntry) (i : String) (h : Reachable parse hist) :
      Reachable parse (handleDelete i hist)

unseal List.merge List.mergeSort in
/-- C8 counterexample: nothing deduplicates ids — loading a stored
collection whose two entries share the id `"x"` yields a reachable
history whose ids are not pairwise distinct. -/
theorem reachable_duplicate_ids_counterexample :
    Reachable tsTable (loadHistory tsTable 0 (some [dupE1, dupE2])) ∧
    ¬ ((loadHistory tsTable 0 (some [dupE1, dupE2])).map PasswordEntry.id).Nodup :=
  ⟨Reachable.load 0 (some [dupE1, dupE2]), by decide⟩

/-- Reachable histories under the safeguards the claim needs: stored
collections have pairwise-distinct ids, and a freshly generated id
(timestamp plus random suffix) never equals an id already in the
history. -/
inductive ReachableU (parse : String → Option Int) : List PasswordEntry → Prop
  | load (now : Int) (store : Option (List PasswordEntry))
      (hstore : ∀ l, store = some l → (l.map PasswordEntry.id).Nodup) :
      ReachableU parse (loadHistory parse now store)
  | generate (hist : List PasswordEntry) (cur : String) (err : Option String)
      (randWords : Nat → Nat) (nowStr suffix : String) (now : Int)
      (opts : GenOptions) (h : ReachableU parse hist)
      (hfresh : (nowStr ++ "-" ++ suffix) ∉ hist.map PasswordEntry.id) :
      ReachableU parse
        ((handleGenerate parse randWords nowStr suffix now opts
          { history := hist, currentPassword := cur, error := err }).history)
  | delete (hist : List PasswordEntry) (i : String) (h : ReachableU parse hist) :
      ReachableU parse (handleDelete i hist)

lemma nodup_ids_pruneOldPasswords (parse : String → Option Int) (now : Int)
    {l : List PasswordEntry} (h : (l.map PasswordEntry.id).Nodup) :
    ((pruneOldPasswords parse now l).map PasswordEntry.id).Nodup :=
  (((List.filter_sublist l).map PasswordEntry.id).nodup) h

lemma nodup_ids_sortByNewest (parse : String → Option Int)
    {l : List PasswordEntry} (h : (l.map PasswordEntry.id).Nodup) :
    ((sortByNewest parse l).map PasswordEntry.id).Nodup :=
  (((List.mergeSort_perm l _).map PasswordEntry.id).nodup_iff).mpr h

/-- C8 (amended): ids are pairwise distinct in every reachable history,
provided stored collections have pairwise-distinct ids and generated
ids never collide with one already present (the code relies on the
timestamp-plus-random-suffix scheme for this; it has no uniqueness
check of its own, as the counterexample shows). -/
theorem reachableU_nodup_ids (parse : String → Option Int)
    (hist : List PasswordEntry) (h : ReachableU parse hist) :
    (hist.map PasswordEntry.id).Nodup := by
  induction h with
  | load now store hstore =>
    match store with
    | none => simp [loadHistory]
    | some l =>
      exact nodup_ids_sortByNewest parse
        (nodup_ids_pruneOldPasswords parse now (hstore l rfl))
  | generate hist cur err randWords nowStr suffix now opts h hfresh ih =>
    unfold handleGenerate
    cases hgen : generatePassword randWords opts with
    | error msg => simpa [hgen] using ih
    | ok pwd =>
      simp only [hgen]
      exact nodup_ids_sortByNewest parse
        (nodup_ids_pruneOldPasswords parse now (List.nodup_cons.mpr ⟨hfresh, ih⟩))
  | delete hist i h ih =>
    exact (((List.filter_sublist hist).map PasswordEntry.id).nodup) ih

/-- Witness for `reachableU_nodup_ids` at concrete inputs. -/
theorem reachableU_nodup_ids_witness :
    ((loadHistory tsTable 0 (some [entryA, entryB])).map PasswordEntry.id).Nodup :=
  reachableU_nodup_ids tsTable _
    (ReachableU.load 0 (some [entryA, entryB]) (fun l hl => by cases hl; decide))

/-- Words below `n` that reduce to residue `r` modulo `m`. -/
def countRange (n m r : Nat) : Nat :=
  ((List.range n).filter fun w => decide (w % m = r)).length

lemma countRange_succ (n m r : Nat) :
    countRange (n + 1) m r = countRange n m r + (if n % m = r then 1 else 0) := by
  unfold countRange
  rw [List.range_succ, List.filter_append, List.length_append]
  by_cases h : n % m = r <;> simp [h]

lemma countRange_base (m r : Nat) :
    ∀ s, s ≤ m → countRange s m r = if r < s then 1 else 0 := by
  intro s
  induction s with
  | zero => intro _; simp [countRange]
  | succ k ih =>
    intro hk
    rw [countRange_succ, ih (Nat.le_of_succ_le hk),
      Nat.mod_eq_of_lt (Nat.lt_of_succ_le hk)]
    split_ifs <;> omega

lemma countRange_shift (m r k : Nat) :
    countRange (m + k) m r = countRange m m r + countRange k m r := by
  unfold countRange
  rw [List.range_add, List.filter_append, List.length_append, List.filter_map]
  congr 1
  rw [List.length_map]
  congr 1
  apply List.filter_congr
  intro i _
  simp [Function.comp, Nat.add_mod_left]

lemma countRange_formula (m r : Nat) (hm : 0 < m) (hr : r < m) :
    ∀ n, countRange n m r = n / m + if r < n % m then 1 else 0 := by
  intro n
  induction n using Nat.strong_induction_on with
  | _ n ih =>
    rcases Nat.lt_or_ge n m with h | h
    · rw [countRange_base m r n (Nat.le_of_lt h), Nat.mod_eq_of_lt h,
        Nat.div_eq_of_lt h]
      simp
    · obtain ⟨k, rfl⟩ : ∃ k, n = m + k := ⟨n - m, by omega⟩
      rw [countRange_shift, countRange_base m r m le_rfl, if_pos hr,
        ih k (by omega), Nat.add_mod_left]
      have hdiv : (m + k) / m = k / m + 1 := by
        rw [Nat.add_comm m k, Nat.add_div_right k hm]
      rw [hdiv]
      split_ifs <;> omega

/-- C9 counterexample: with the uppercase-only alphabet (size 26, which
does not divide `2^32`), index 0 is produced by more 32-bit words than
index 25, so the `w % max` reduction is not exactly uniform. -/
theorem getRandomInt_modulo_bias :
    (passwordAlphabet optsUpper).length = 26 ∧
    wordCount 26 0 ≠ wordCount 26 25 := by
  constructor
  · decide
  · have h0 : wordCount 26 0 = 2 ^ 32 / 26 + if 0 < 2 ^ 32 % 26 then 1 else 0 :=
      countRange_formula 26 0 (by decide) (by decide) (2 ^ 32)
    have h25 : wordCount 26 25 = 2 ^ 32 / 26 + if 25 < 2 ^ 32 % 26 then 1 else 0 :=
      countRange_formula 26 25 (by decide) (by decide) (2 ^ 32)
    rw [h0, h25]
    decide

/-- C9 (amended): the reduction `w ↦ w % max` of a uniform 32-bit word
is only near-uniform — index `r` is produced by `⌊2^32/max⌋ + 1` words
when `r < 2^32 mod max` and by `⌊2^32/max⌋` words otherwise, so counts
differ by at most one and are all equal only when `max` divides `2^32`,
which holds for no alphabet size this program builds. -/
theorem getRandomInt_near_uniform (max r : Nat) (hm : 0 < max) (hr : r < max) :
    wordCount max r = 2 ^ 32 / max + if r < 2 ^ 32 % max then 1 else 0 :=
  countRange_formula max r hm hr (2 ^ 32)

/-- Witness for `getRandomInt_near_uniform` at concrete inputs. -/
theorem getRandomInt_near_uniform_witness :
    wordCount 26 3 = 2 ^ 32 / 26 + if 3 < 2 ^ 32 % 26 then 1 else 0 :=
  getRandomInt_near_uniform 26 3 (by decide) (by decide)
